import Mathlib

/-
  Verification of the mls-chat orchestration and delivery layer.

  Shallow embedding of the client protocol orchestrator (src/client/...)
  and the server-side message relay and key-package directory
  (src/server.rs).  Identities are strings, group and package identifiers
  are natural numbers, protocol blobs are a structured inductive type that
  the relay treats as opaque.  The external group cryptographic engine
  (openmls) is modelled only through the membership effects the
  orchestrator observes, as the spec describes them.
-/

namespace MlsChat

/-- A member of a group as the orchestrator sees it: a leaf index and the
identity string carried by the basic credential at that leaf.  The source
decodes member.credential through BasicCredential::try_from and utf8; in
this model identities are strings, so both decodings always succeed. -/
structure GroupMember where
  index : Nat
  credential : String
deriving DecidableEq, Repr

/-- The content of an MLS protocol message after the engine has processed
it, mirroring ProcessedMessageContent in src/client/message.rs. -/
inductive ProtocolContent where
  | appMsg (text : String)
  | proposalMsg (pid : Nat)
  | externalJoinProposalMsg (pid : Nat)
  | commitMsg (newMembers : List GroupMember)
deriving DecidableEq, Repr

/-- An opaque protocol blob, mirroring MlsMessageBodyIn in
src/client/message.rs.  The sender field carries the leaf index for
Sender::Member and none for the other sender variants.  The relay never
inspects this type. -/
inductive Blob where
  | publicMsg (groupId : Nat) (sender : Option Nat) (content : ProtocolContent)
  | privateMsg (groupId : Nat) (sender : Option Nat) (content : ProtocolContent)
  | welcome (groupId : Nat) (epoch : Nat) (members : List GroupMember)
  | groupInfo
  | keyPackageMsg
deriving DecidableEq, Repr

/-- A row of the server_message table (src/server.rs enqueue_message):
message_id, recipient, content, created_at. -/
structure QueuedMessage where
  messageId : Nat
  recipient : String
  content : Blob
  createdAt : Int
deriving DecidableEq, Repr

/-- One live delivery channel of the connection registry: the sending half
of the tokio mpsc channel created in receive_messages.  The buffered list
holds the items already handed to the channel; capacity records the bound
(100 in the source) used only to talk about fullness. -/
structure Channel where
  closed : Bool
  capacity : Nat
  buffered : List (Blob × Int)
deriving DecidableEq, Repr

/-- A full channel: at least capacity items are buffered. -/
def Channel.isFull (c : Channel) : Prop := c.capacity ≤ c.buffered.length

instance (c : Channel) : Decidable c.isFull := by
  unfold Channel.isFull
  infer_instance

/-- Pushing into a tokio mpsc channel, as done by tx.send(...).await in
send_message (src/server.rs): the send only returns an error when the
receiving half has been dropped (closed channel); when the buffer is full
the future awaits until capacity frees up and then delivers, so fullness
never produces a failure.  The await is modelled as the item eventually
reaching the buffer. -/
def Channel.push (c : Channel) (item : Blob × Int) : Option Channel :=
  if c.closed then none
  else some { c with buffered := c.buffered ++ [item] }

/-- A key package as the directory sees it: valid records that the bytes
deserialize and validate (KeyPackageIn::tls_deserialize_exact_bytes and
validate in src/server.rs), lastResort the last-resort flag, identity the
identity string of the embedded basic credential, and bytes a token
standing for the raw uploaded bytes. -/
structure KeyPackage where
  valid : Bool
  lastResort : Bool
  identity : String
  bytes : Nat
deriving DecidableEq, Repr

/-- A row of the server_key_package table (src/server.rs
upload_key_package): package_id, client_id, package, created_at.
Modelled from the spec: the migration files are not part of the sources;
the design's data model makes the directory hold at most one live
package per identity, a newer upload superseding, so client_id is a
unique key of this table. -/
structure KpRow where
  packageId : Nat
  clientId : String
  package : KeyPackage
  createdAt : Int
deriving DecidableEq, Repr

/-- The relay state (ChatServiceImpl in src/server.rs): the two sqlite
tables as insertion-ordered row lists and the in-memory DashMap of
connected clients as a function. -/
structure ServerState where
  keyPackages : List KpRow
  queue : List QueuedMessage
  connected : String → Option Channel

/-- A SendMessage request (sender, recipients, content). -/
structure SendMessageRequest where
  sender : String
  recipients : List String
  content : Blob
deriving Repr

/-- The error text produced for sqlx errors in src/server.rs. -/
def dbErrorMsg : String := "Database error"

/-- INSERT INTO server_message: appends one row to the queue table
(enqueue_message in src/server.rs). -/
def enqueueMessage (s : ServerState) (messageId : Nat) (recipient : String)
    (content : Blob) (createdAt : Int) : ServerState :=
  { s with queue := s.queue ++ [⟨messageId, recipient, content, createdAt⟩] }

/-- The per-recipient loop of send_message (src/server.rs): look the
recipient up in the connection registry; if a channel is there and the
push succeeds, continue with no durable write; otherwise enqueue durably,
surfacing a database failure (modelled by the dbFails oracle, per
recipient) as an internal error that aborts the loop. -/
def sendMessageGo (content : Blob) (messageId : Nat) (createdAt : Int)
    (dbFails : String → Bool) :
    ServerState → List String → ServerState × Except String Int
  | s, [] => (s, Except.ok createdAt)
  | s, r :: rest =>
    match s.connected r with
    | some c =>
      match c.push (content, createdAt) with
      | some c1 =>
          sendMessageGo content messageId createdAt dbFails
            { s with connected := fun x => if x = r then some c1 else s.connected x } rest
      | none =>
          if dbFails r then (s, Except.error dbErrorMsg)
          else sendMessageGo content messageId createdAt dbFails
            (enqueueMessage s messageId r content createdAt) rest
    | none =>
      if dbFails r then (s, Except.error dbErrorMsg)
      else sendMessageGo content messageId createdAt dbFails
        (enqueueMessage s messageId r content createdAt) rest

/-- send_message (src/server.rs): one fresh message identifier and one
timestamp for the whole call, then the per-recipient fan-out loop.  The
returned value is the new relay state together with the response
timestamp or the surfaced database error. -/
def sendMessage (s : ServerState) (req : SendMessageRequest) (messageId : Nat)
    (createdAt : Int) (dbFails : String → Bool) : ServerState × Except String Int :=
  sendMessageGo req.content messageId createdAt dbFails s req.recipients

/-- Insertion of one queued message into a list ordered by created_at
(ascending, stable), used to express ORDER BY created_at ASC. -/
def insertByTime (q : QueuedMessage) : List QueuedMessage → List QueuedMessage
  | [] => [q]
  | p :: rest =>
    if q.createdAt < p.createdAt then q :: p :: rest else p :: insertByTime q rest

/-- Sorting queued messages by created_at ascending, the order requested
by the dequeue query of receive_messages (src/server.rs). -/
def sortByCreatedAt : List QueuedMessage → List QueuedMessage
  | [] => []
  | q :: rest => insertByTime q (sortByCreatedAt rest)

/-- The channel built by receive_messages: tokio mpsc with capacity 100,
open, empty. -/
def freshChannel : Channel := ⟨false, 100, []⟩

/-- receive_messages (src/server.rs): the single DELETE ... RETURNING
statement removes every server_message row for the client and returns
their contents ordered by created_at ascending; then the sending half of
a fresh bounded channel is inserted into the connection registry,
replacing any prior entry for the same client.  The returned list is the
initial drained segment of the stream. -/
def receiveMessages (s : ServerState) (clientId : String) :
    ServerState × List (Blob × Int) :=
  let drained := sortByCreatedAt (s.queue.filter (fun q => q.recipient == clientId))
  let s1 : ServerState :=
    { s with
      queue := s.queue.filter (fun q => !(q.recipient == clientId)),
      connected := fun x => if x = clientId then some freshChannel else s.connected x }
  (s1, drained.map (fun q => (q.content, q.createdAt)))

/-- messages.chain(ReceiverStream::new(rx)) in receive_messages: the
drained messages and the live traffic are concatenated into one
sequence. -/
def receiveStream (drained later : List (Blob × Int)) : List (Blob × Int) :=
  drained ++ later

/-- upload_key_package (src/server.rs): require the bytes to deserialize
and validate, the last-resort flag to be set and the embedded credential
identity to equal the claimed client id, then INSERT the row into
server_key_package.  Modelled from the spec for the absent migration:
client_id is a unique key and a newer upload supersedes, so the insert
replaces any prior row of the client (conflict-replace); the validation
chain is the one of the source. -/
def uploadKeyPackage (s : ServerState) (clientId : String) (kp : KeyPackage)
    (packageId : Nat) (createdAt : Int) : Except String (ServerState × Nat) :=
  if !kp.valid then Except.error "Invalid key package"
  else if !kp.lastResort then Except.error "Key package is not last resort"
  else if kp.identity ≠ clientId then Except.error "Client ID mismatch with credential"
  else Except.ok
    ({ s with keyPackages :=
        s.keyPackages.filter (fun row => row.clientId ≠ clientId)
          ++ [⟨packageId, clientId, kp, createdAt⟩] },
      packageId)

/-- fetch_key_package (src/server.rs): SELECT package FROM
server_key_package WHERE client_id = ? with fetch_optional; under the
spec-modelled unique-per-identity schema the scan meets at most one
matching row, returned if present; not found otherwise. -/
def fetchKeyPackage (s : ServerState) (clientId : String) : Except String KeyPackage :=
  match s.keyPackages.find? (fun row => row.clientId = clientId) with
  | some row => Except.ok row.package
  | none => Except.error "No key package found"

/-- A sequence of upload_key_package calls for one client, stopping at the
first failure. -/
def uploadAll (s : ServerState) (clientId : String) :
    List (KeyPackage × Nat × Int) → Except String ServerState
  | [] => Except.ok s
  | (kp, pid, t) :: rest =>
    match uploadKeyPackage s clientId kp pid t with
    | Except.ok (s1, _) => uploadAll s1 clientId rest
    | Except.error e => Except.error e

/-- A row of the client_user table (src/client/register.rs): username,
signature private key, serialized credential-with-key.  The credential
blob is represented by the identity string it binds. -/
structure ClientRow where
  username : String
  signatureKey : Nat
  credentialBlob : String
deriving DecidableEq, Repr

/-- The errors the orchestrator operations surface, following the error
taxonomy of the design.  The anyhow error texts of the source are mapped
to constructors; relay carries a remote status message and storage a
database error message. -/
inductive ClientError where
  | notRegistered
  | groupNotFound
  | memberExists
  | memberNotFound
  | invalidKeyPackage
  | protocolViolation
  | relay (msg : String)
  | storage (msg : String)
deriving DecidableEq, Repr

/-- The error text of a unique-key violation on client_user.username, the
constraint of the client migration.  Modelled from the spec: the
migration files are not part of the sources; the data-model section makes
an identity a unique name owning one row, so username is a unique key. -/
def uniqueViolationMsg : String := "UNIQUE constraint failed: client_user.username"

/-- The group state the orchestrator observes through the engine: the
epoch, the member list (leaf index and credential identity) and the
staged pending proposals.  Modelled from the spec: the engine-internal
representation is opaque; this carries exactly what the orchestrator
reads back (members(), member_at) and what the glossary says a commit or
proposal does to it. -/
structure GroupState where
  epoch : Nat
  members : List GroupMember
  pending : List Nat
deriving DecidableEq, Repr

/-- The client-side group store (MlsGroup::load keyed by group id). -/
def Groups : Type := Nat → Option GroupState

/-- Storing a group state under its identifier. -/
def groupsUpdate (groups : Groups) (gid : Nat) (g : GroupState) : Groups :=
  fun x => if x = gid then some g else groups x

/-- credential (src/client/register.rs): SELECT the row of client_user
for the username; no row means the user-is-not-registered error. -/
def credential (store : List ClientRow) (username : String) :
    Except ClientError ClientRow :=
  match store.find? (fun row => row.username = username) with
  | some row => Except.ok row
  | none => Except.error ClientError.notRegistered

/-- The identity strings of the current members of a group. -/
def identities (g : GroupState) : List String :=
  g.members.map (fun m => m.credential)

/-- The recipient-set computation shared by send, update_group,
add_member and remove_member (src/client/...): iterate members() and keep
every credential identity that differs from the acting identity. -/
def recipientsExcept (g : GroupState) (user : String) : List String :=
  g.members.filterMap (fun m =>
    if m.credential = user then none else some m.credential)

/-- The leaf index of the acting identity, as the engine records it. -/
def memberIndexOf (g : GroupState) (user : String) : Option Nat :=
  (g.members.find? (fun m => m.credential = user)).map (fun m => m.index)

/-- A fresh leaf index for a newly added member.  Modelled from the spec:
leaf placement is engine-internal; any index not in use works for the
membership view. -/
def freshIndex (g : GroupState) : Nat :=
  (g.members.map (fun m => m.index)).foldr (fun a b => max a b) 0 + 1

/-- Modelled from the spec: merging the add commit appends the new member
to the live membership and advances the epoch (add_members followed by
merge_pending_commit in src/client/member.rs). -/
def addMemberEffect (g : GroupState) (identity : String) : GroupState :=
  ⟨g.epoch + 1, g.members ++ [⟨freshIndex g, identity⟩], g.pending⟩

/-- Modelled from the spec: merging the remove commit deletes the leaf at
the removed index and advances the epoch (remove_members followed by
merge_pending_commit in src/client/member.rs). -/
def removeMemberEffect (g : GroupState) (leafIndex : Nat) : GroupState :=
  ⟨g.epoch + 1, g.members.filter (fun m => m.index ≠ leafIndex), g.pending⟩

/-- The group built by create_group (src/client/create_group.rs): the
acting identity as sole member at leaf 0, epoch 0. -/
def initialGroup (creator : String) : GroupState := ⟨0, [⟨0, creator⟩], []⟩

/-- create_group (src/client/create_group.rs): load the credential, build
a group with a fresh identifier and the actor as sole member, return the
identifier.  No fan-out. -/
def createGroup (store : List ClientRow) (groups : Groups) (username : String)
    (freshGroupId : Nat) : Except ClientError (Groups × Nat) := do
  let _ ← credential store username
  pure (groupsUpdate groups freshGroupId (initialGroup username), freshGroupId)

/-- update_group (src/client/group.rs): load the credential and the
group, produce a self-update commit, merge it immediately (epoch
advances, membership unchanged), then send the commit to every current
member except the committer. -/
def updateGroup (store : List ClientRow) (groups : Groups) (user : String)
    (groupId : Nat) : Except ClientError (Groups × List SendMessageRequest) := do
  let _ ← credential store user
  match groups groupId with
  | none => throw ClientError.groupNotFound
  | some g =>
    let g1 : GroupState := { g with epoch := g.epoch + 1 }
    let recipients := recipientsExcept g1 user
    pure (groupsUpdate groups groupId g1,
      [{ sender := user, recipients := recipients,
         content := Blob.publicMsg groupId (memberIndexOf g1 user)
           (ProtocolContent.commitMsg g1.members) }])

/-- send (src/client/message.rs): load the credential and the group,
encrypt the text under the current epoch, compute the recipients as all
members whose identity differs from the sender, and issue one
send_message request. -/
def clientSend (store : List ClientRow) (groups : Groups) (user : String)
    (groupId : Nat) (text : String) : Except ClientError SendMessageRequest := do
  let _ ← credential store user
  match groups groupId with
  | none => throw ClientError.groupNotFound
  | some g =>
    pure { sender := user, recipients := recipientsExcept g user,
           content := Blob.privateMsg groupId (memberIndexOf g user)
             (ProtocolContent.appMsg text) }

/-- add_member (src/client/member.rs): load the credential, fetch and
validate the new member's key package from the directory, load the group,
compute the pre-existing members except the actor, refuse a duplicate
(guard over that actor-less list), ask the engine to add the member and
merge, then send the commit to the pre-existing members (skipped when
that list is empty) and the welcome to the new member alone.  The result
is the updated group store and the requests issued; an error produces
neither. -/
def addMember (store : List ClientRow) (srv : ServerState) (groups : Groups)
    (username : String) (groupId : Nat) (newMember : String) :
    Except ClientError (Groups × List SendMessageRequest) := do
  let _ ← credential store username
  let kp ← match fetchKeyPackage srv newMember with
    | Except.ok kp => pure kp
    | Except.error e => throw (ClientError.relay e)
  if !kp.valid then throw ClientError.invalidKeyPackage
  match groups groupId with
  | none => throw ClientError.groupNotFound
  | some g =>
    let members := recipientsExcept g username
    if members.contains newMember then throw ClientError.memberExists
    let g1 := addMemberEffect g kp.identity
    let commitBlob := Blob.publicMsg groupId (memberIndexOf g1 username)
      (ProtocolContent.commitMsg g1.members)
    let welcomeBlob := Blob.welcome groupId g1.epoch g1.members
    let sends :=
      (if members.isEmpty then [] else
        [{ sender := username, recipients := members, content := commitBlob }])
      ++ [{ sender := username, recipients := [newMember], content := welcomeBlob }]
    pure (groupsUpdate groups groupId g1, sends)

/-- remove_member (src/client/member.rs): load the credential and the
group, locate the target's leaf by credential identity (absence is the
member-not-found error), ask the engine to remove it; the engine's
optional welcome output is a parameter, and a present welcome is the
asserted fatal invariant violation, hit before the merge and before any
send.  Otherwise merge and send the commit to the remaining members
except the committer (skipped when empty). -/
def removeMember (store : List ClientRow) (groups : Groups) (sender : String)
    (groupId : Nat) (target : String) (gceWelcome : Option Nat) :
    Except ClientError (Groups × List SendMessageRequest) := do
  let _ ← credential store sender
  match groups groupId with
  | none => throw ClientError.groupNotFound
  | some g =>
    match g.members.find? (fun m => m.credential = target) with
    | none => throw ClientError.memberNotFound
    | some m =>
      if gceWelcome.isSome then throw ClientError.protocolViolation
      let g1 := removeMemberEffect g m.index
      let recipients := recipientsExcept g1 sender
      let sends :=
        if recipients.isEmpty then [] else
          [{ sender := sender, recipients := recipients,
             content := Blob.publicMsg groupId (memberIndexOf g1 sender)
               (ProtocolContent.commitMsg g1.members) }]
      pure (groupsUpdate groups groupId g1, sends)

/-- register (src/client/register.rs): build a credential for the
username, generate a signing key, INSERT the client_user row (the unique
key on username makes a duplicate registration fail here, before any key
package is built), then build a last-resort key package for the
credential and upload it to the directory.  The row insert precedes the
upload, so an upload failure leaves the row behind, as in the source. -/
def register (store : List ClientRow) (srv : ServerState) (username : String)
    (freshKey packageId packageBytes : Nat) (now : Int) :
    List ClientRow × ServerState × Except ClientError Unit :=
  if store.any (fun row => row.username = username) then
    (store, srv, Except.error (ClientError.storage uniqueViolationMsg))
  else
    let store1 := store ++ [⟨username, freshKey, username⟩]
    let kp : KeyPackage := ⟨true, true, username, packageBytes⟩
    match uploadKeyPackage srv username kp packageId now with
    | Except.ok (srv1, _) => (store1, srv1, Except.ok ())
    | Except.error e => (store1, srv, Except.error (ClientError.relay e))

/-- Sender resolution in handle_protocol_message (src/client/message.rs):
a Sender::Member leaf index is resolved through member_at (failure is the
member-not-found error); any other sender variant is logged and the
message dropped, reported here as a resolved none. -/
def resolveSender (g : GroupState) : Option Nat → Except ClientError (Option String)
  | none => Except.ok none
  | some idx =>
    match g.members.find? (fun m => m.index = idx) with
    | none => Except.error ClientError.memberNotFound
    | some m => Except.ok (some m.credential)

/-- Modelled from the spec: merging a received commit advances the epoch
and applies the commit's membership change; staged proposals covered by
the commit are consumed (merge_staged_commit in src/client/message.rs is
engine code). -/
def mergeCommit (g : GroupState) (newMembers : List GroupMember) : GroupState :=
  ⟨g.epoch + 1, newMembers, []⟩

/-- handle_protocol_message (src/client/message.rs): load the group of
the message, process it, resolve the sender (dropping non-member
senders), then dispatch: application messages are printed as
sender-colon-text lines, proposals are staged, commits merged. -/
def handleProtocolMessage (groups : Groups) (gid : Nat) (sender : Option Nat)
    (content : ProtocolContent) : Groups × List String × Except ClientError Unit :=
  match groups gid with
  | none => (groups, [], Except.error ClientError.groupNotFound)
  | some g =>
    match resolveSender g sender with
    | Except.error e => (groups, [], Except.error e)
    | Except.ok none => (groups, [], Except.ok ())
    | Except.ok (some senderName) =>
      match content with
      | ProtocolContent.appMsg text =>
          (groups, [senderName ++ ": " ++ text], Except.ok ())
      | ProtocolContent.proposalMsg pid =>
          (groupsUpdate groups gid { g with pending := g.pending ++ [pid] },
            [], Except.ok ())
      | ProtocolContent.externalJoinProposalMsg pid =>
          (groupsUpdate groups gid { g with pending := g.pending ++ [pid] },
            [], Except.ok ())
      | ProtocolContent.commitMsg newMembers =>
          (groupsUpdate groups gid (mergeCommit g newMembers), [], Except.ok ())

/-- Dispatch of one incoming blob in receive (src/client/message.rs):
public and private messages go to handle_protocol_message, a welcome
joins the brand-new group under the welcome's embedded group id, and a
top-level group-info or key-package message is a fatal error. -/
def processIncoming (groups : Groups) :
    Blob → Groups × List String × Except ClientError Unit
  | Blob.publicMsg gid sender content => handleProtocolMessage groups gid sender content
  | Blob.privateMsg gid sender content => handleProtocolMessage groups gid sender content
  | Blob.welcome gid epoch members =>
      (groupsUpdate groups gid ⟨epoch, members, []⟩, [], Except.ok ())
  | Blob.groupInfo => (groups, [], Except.error ClientError.protocolViolation)
  | Blob.keyPackageMsg => (groups, [], Except.error ClientError.protocolViolation)

/-- The receive loop over a finite prefix of the stream: process each
message in order, stopping at the first fatal error. -/
def processAll (groups : Groups) :
    List Blob → Groups × List String × Except ClientError Unit
  | [] => (groups, [], Except.ok ())
  | b :: rest =>
    match processIncoming groups b with
    | (groups1, out1, Except.ok _) =>
      let rec3 := processAll groups1 rest
      (rec3.1, out1 ++ rec3.2.1, rec3.2.2)
    | (groups1, out1, Except.error e) => (groups1, out1, Except.error e)

/-- receive (src/client/message.rs): open the receive_messages stream for
the user (no identity-store read happens on this path) and process the
delivered messages in order.  The result is the relay state after the
call, the updated group store, the printed lines and the loop outcome. -/
def clientReceive (store : List ClientRow) (groups : Groups) (srv : ServerState)
    (user : String) : ServerState × Groups × List String × Except ClientError Unit :=
  let served := receiveMessages srv user
  let processed := processAll groups (served.2.map (fun m => m.1))
  (served.1, processed.1, processed.2.1, processed.2.2)

/-- A group operation at the membership level, for quantifying over
histories of add_member and remove_member calls. -/
inductive GroupOp where
  | addOp (actor : String) (newIdentity : String)
  | removeOp (actor : String) (target : String)

/-- The membership effect of one operation: an add guarded exactly as
add_member guards it (duplicate over the actor-less member list leaves
the state unchanged because the call fails), a remove of an absent
target likewise unchanged, otherwise the merged engine effect. -/
def applyOp (g : GroupState) : GroupOp → GroupState
  | GroupOp.addOp actor newId =>
    if (recipientsExcept g actor).contains newId then g
    else addMemberEffect g newId
  | GroupOp.removeOp _ target =>
    match g.members.find? (fun m => m.credential = target) with
    | none => g
    | some m => removeMemberEffect g m.index

/-- A history of membership operations applied in order. -/
def applyOps (g : GroupState) (ops : List GroupOp) : GroupState :=
  ops.foldl applyOp g

/-! Helper lemmas. -/

theorem mem_recipientsExcept (g : GroupState) (user x : String) :
    x ∈ recipientsExcept g user ↔ x ∈ identities g ∧ x ≠ user := by
  unfold recipientsExcept identities
  rw [List.mem_filterMap]
  constructor
  · rintro ⟨m, hm, hx⟩
    by_cases h : m.credential = user
    · simp [h] at hx
    · rw [if_neg h] at hx
      cases hx
      exact ⟨List.mem_map_of_mem _ hm, h⟩
  · rintro ⟨hx, hne⟩
    rcases List.mem_map.mp hx with ⟨m, hm, hmx⟩
    refine ⟨m, hm, ?_⟩
    rw [if_neg (by rw [hmx]; exact hne)]
    rw [hmx]

/-- The ordered timestamp relation on queued messages. -/
def timeLE (a b : QueuedMessage) : Prop := a.createdAt ≤ b.createdAt

theorem insertByTime_perm (q : QueuedMessage) (l : List QueuedMessage) :
    List.Perm (insertByTime q l) (q :: l) := by
  induction l with
  | nil => exact List.Perm.refl _
  | cons p rest ih =>
    unfold insertByTime
    by_cases h : q.createdAt < p.createdAt
    · rw [if_pos h]
    · rw [if_neg h]
      exact List.Perm.trans (List.Perm.cons p ih) (List.Perm.swap q p rest)

theorem sortByCreatedAt_perm (l : List QueuedMessage) :
    List.Perm (sortByCreatedAt l) l := by
  induction l with
  | nil => exact List.Perm.refl _
  | cons q rest ih =>
    exact List.Perm.trans (insertByTime_perm q (sortByCreatedAt rest))
      (List.Perm.cons q ih)

theorem insertByTime_pairwise (q : QueuedMessage) (l : List QueuedMessage)
    (h : l.Pairwise timeLE) : (insertByTime q l).Pairwise timeLE := by
  induction l with
  | nil => exact List.pairwise_singleton _ _
  | cons p rest ih =>
    rcases List.pairwise_cons.mp h with ⟨hp, hrest⟩
    unfold insertByTime
    by_cases hlt : q.createdAt < p.createdAt
    · rw [if_pos hlt]
      refine List.pairwise_cons.mpr ⟨?_, h⟩
      intro b hb
      rcases List.mem_cons.mp hb with hb | hb
      · subst hb; exact le_of_lt hlt
      · exact le_trans (le_of_lt hlt) (hp b hb)
    · rw [if_neg hlt]
      refine List.pairwise_cons.mpr ⟨?_, ih hrest⟩
      intro b hb
      have hb2 : b ∈ q :: rest := (insertByTime_perm q rest).mem_iff.mp hb
      rcases List.mem_cons.mp hb2 with hb3 | hb3
      · subst hb3; exact le_of_not_lt hlt
      · exact hp b hb3

theorem sortByCreatedAt_pairwise (l : List QueuedMessage) :
    (sortByCreatedAt l).Pairwise timeLE := by
  induction l with
  | nil => exact List.Pairwise.nil
  | cons q rest ih => exact insertByTime_pairwise q (sortByCreatedAt rest) ih

theorem filter_not_filter {α : Type} (p : α → Bool) (l : List α) :
    (l.filter (fun a => !(p a))).filter p = [] := by
  induction l with
  | nil => rfl
  | cons a rest ih =>
    by_cases h : p a
    · simp [List.filter_cons, h, ih]
    · simp [List.filter_cons, h, ih]

theorem findAppendNone {α : Type} (p : α → Bool) (l1 l2 : List α)
    (h : l1.find? p = none) : (l1 ++ l2).find? p = l2.find? p := by
  induction l1 with
  | nil => rfl
  | cons b rest ih =>
    by_cases hb : p b
    · rw [List.find?_cons_of_pos _ hb] at h
      cases h
    · rw [List.find?_cons_of_neg _ (by simpa using hb)] at h
      rw [List.cons_append, List.find?_cons_of_neg _ (by simpa using hb)]
      exact ih h

theorem uploadKeyPackage_ok_inv (s : ServerState) (clientId : String)
    (kp : KeyPackage) (pid : Nat) (t : Int) (s1 : ServerState) (pid1 : Nat)
    (h : uploadKeyPackage s clientId kp pid t = Except.ok (s1, pid1)) :
    s1.keyPackages = s.keyPackages.filter (fun row => row.clientId ≠ clientId)
        ++ [⟨pid, clientId, kp, t⟩] ∧
      s1.queue = s.queue ∧ s1.connected = s.connected ∧ pid1 = pid := by
  unfold uploadKeyPackage at h
  by_cases h1 : kp.valid
  · by_cases h2 : kp.lastResort
    · by_cases h3 : kp.identity = clientId
      · rw [if_neg (by simp [h1]), if_neg (by simp [h2]), if_neg (by simp [h3])] at h
        cases h
        exact ⟨rfl, rfl, rfl, rfl⟩
      · rw [if_neg (by simp [h1]), if_neg (by simp [h2]), if_pos (by simp [h3])] at h
        cases h
    · rw [if_neg (by simp [h1]), if_pos (by simp [h2])] at h
      cases h
  · rw [if_pos (by simp [h1])] at h
    cases h

theorem filter_ne_find_none (cid : String) (l : List KpRow) :
    (l.filter (fun row => row.clientId ≠ cid)).find? (fun row => row.clientId = cid)
      = none := by
  induction l with
  | nil => rfl
  | cons r rest ih =>
    by_cases hr : r.clientId = cid
    · have hfilter : (r :: rest).filter (fun row => row.clientId ≠ cid)
          = rest.filter (fun row => row.clientId ≠ cid) := by
        simp [List.filter_cons, hr]
      rw [hfilter]
      exact ih
    · have hfilter : (r :: rest).filter (fun row => row.clientId ≠ cid)
          = r :: rest.filter (fun row => row.clientId ≠ cid) := by
        simp [List.filter_cons, hr]
      rw [hfilter, List.find?_cons_of_neg _ (by simpa using hr)]
      exact ih

theorem filter_ne_filter_eq_nil (cid : String) (l : List KpRow) :
    (l.filter (fun row => row.clientId ≠ cid)).filter (fun row => row.clientId = cid)
      = [] := by
  induction l with
  | nil => rfl
  | cons r rest ih =>
    by_cases hr : r.clientId = cid
    · have hfilter : (r :: rest).filter (fun row => row.clientId ≠ cid)
          = rest.filter (fun row => row.clientId ≠ cid) := by
        simp [List.filter_cons, hr]
      rw [hfilter]
      exact ih
    · have hfilter : (r :: rest).filter (fun row => row.clientId ≠ cid)
          = r :: rest.filter (fun row => row.clientId ≠ cid) := by
        simp [List.filter_cons, hr]
      rw [hfilter, List.filter_cons_of_neg]
      · exact ih
      · simpa using hr

/-! Claim theorems. -/

/-- Claim C1: for every group state reachable by any sequence of
add-member and remove-member operations, the recipient set computed by
send equals the set of identity strings of the current live membership
minus the sender: it never includes the sender and never omits a current
member. -/
theorem send_recipients_exact
    (store : List ClientRow) (groups : Groups) (creator user text : String)
    (groupId : Nat) (ops : List GroupOp) (row : ClientRow)
    (hcred : credential store user = Except.ok row)
    (hg : groups groupId = some (applyOps (initialGroup creator) ops)) :
    ∃ req, clientSend store groups user groupId text = Except.ok req ∧
      ∀ x, x ∈ req.recipients ↔
        (x ∈ identities (applyOps (initialGroup creator) ops) ∧ x ≠ user) := by
  have h1 : clientSend store groups user groupId text =
      Except.ok ⟨user, recipientsExcept (applyOps (initialGroup creator) ops) user,
        Blob.privateMsg groupId
          (memberIndexOf (applyOps (initialGroup creator) ops) user)
          (ProtocolContent.appMsg text)⟩ := by
    unfold clientSend
    simp only [hcred, hg]
    rfl
  refine ⟨_, h1, ?_⟩
  intro x
  exact mem_recipientsExcept _ user x

def storeW1 : List ClientRow := [⟨"alice", 1, "alice"⟩]

def opsW1 : List GroupOp :=
  [GroupOp.addOp "alice" "bob", GroupOp.addOp "alice" "carol",
   GroupOp.removeOp "alice" "bob"]

def groupsW1 : Groups :=
  fun gid => if gid = 5 then some (applyOps (initialGroup "alice") opsW1) else none

/-- Witness for C1 at a concrete three-operation history. -/
theorem send_recipients_exact_witness :
    credential storeW1 "alice" = Except.ok ⟨"alice", 1, "alice"⟩ ∧
    groupsW1 5 = some (applyOps (initialGroup "alice") opsW1) ∧
    ∃ req, clientSend storeW1 groupsW1 "alice" 5 "hi" = Except.ok req ∧
      ∀ x, x ∈ req.recipients ↔
        (x ∈ identities (applyOps (initialGroup "alice") opsW1) ∧ x ≠ "alice") :=
  ⟨rfl, rfl,
    send_recipients_exact storeW1 groupsW1 "alice" "alice" "hi" 5 opsW1
      ⟨"alice", 1, "alice"⟩ rfl rfl⟩

/-- Claim C3: the key-package directory is last-write-wins: after any
nonempty sequence of successful uploads for the same identity, from any
starting state, fetchKeyPackage returns the package of the most recent
upload, and the directory holds exactly that one live row for the
identity. -/
theorem fetch_last_upload_wins
    (s : ServerState) (clientId : String) (ups : List (KeyPackage × Nat × Int))
    (kp : KeyPackage) (pid : Nat) (t : Int) (sFin : ServerState)
    (h : uploadAll s clientId (ups ++ [(kp, pid, t)]) = Except.ok sFin) :
    fetchKeyPackage sFin clientId = Except.ok kp ∧
    sFin.keyPackages.filter (fun row => row.clientId = clientId)
      = [⟨pid, clientId, kp, t⟩] := by
  induction ups generalizing s with
  | nil =>
    simp only [List.nil_append, uploadAll] at h
    cases hu : uploadKeyPackage s clientId kp pid t with
    | error e =>
      rw [hu] at h
      have h2 : (Except.error e : Except String ServerState) = Except.ok sFin := h
      cases h2
    | ok pr =>
      rcases pr with ⟨s1, pid1⟩
      rw [hu] at h
      have h2 : Except.ok (ε := String) s1 = Except.ok sFin := h
      cases h2
      rcases uploadKeyPackage_ok_inv s clientId kp pid t sFin pid1 hu with
        ⟨hkeys, -, -, -⟩
      constructor
      · unfold fetchKeyPackage
        rw [hkeys, findAppendNone _ _ _ (filter_ne_find_none clientId s.keyPackages),
          List.find?_cons_of_pos _ (by simp)]
      · rw [hkeys, List.filter_append, filter_ne_filter_eq_nil clientId]
        simp
  | cons u ups2 ih =>
    rcases u with ⟨kp0, pid0, t0⟩
    simp only [List.cons_append, uploadAll] at h
    cases hu : uploadKeyPackage s clientId kp0 pid0 t0 with
    | error e =>
      rw [hu] at h
      have h2 : (Except.error e : Except String ServerState) = Except.ok sFin := h
      cases h2
    | ok pr =>
      rcases pr with ⟨s1, pid1⟩
      rw [hu] at h
      exact ih s1 h

def kpA1 : KeyPackage := ⟨true, true, "alice", 1⟩

def kpA2 : KeyPackage := ⟨true, true, "alice", 2⟩

def srvC0 : ServerState := ⟨[], [], fun _ => none⟩

def srvC2 : ServerState := ⟨[⟨11, "alice", kpA2, 1⟩], [], fun _ => none⟩

/-- Witness for C3 at a concrete two-upload history: the second upload
supersedes the first and fetch returns it. -/
theorem fetch_last_upload_wins_witness :
    uploadAll srvC0 "alice" ([(kpA1, 10, 0)] ++ [(kpA2, 11, 1)]) = Except.ok srvC2 ∧
    fetchKeyPackage srvC2 "alice" = Except.ok kpA2 ∧
    srvC2.keyPackages.filter (fun row => row.clientId = "alice")
      = [⟨11, "alice", kpA2, 1⟩] :=
  ⟨rfl,
    (fetch_last_upload_wins srvC0 "alice" [(kpA1, 10, 0)] kpA2 11 1 srvC2 rfl).1,
    (fetch_last_upload_wins srvC0 "alice" [(kpA1, 10, 0)] kpA2 11 1 srvC2 rfl).2⟩

/-- Claim C5: receiveMessages drains exactly the durably queued messages
of the identity, ordered by enqueue time oldest first, removes them so a
second call returns none of them again, registers a fresh live channel
for the identity replacing any prior one while leaving other identities'
channels untouched, and the delivered sequence is the drained messages
concatenated with the live stream. -/
theorem receiveMessages_spec (s : ServerState) (clientId : String) :
    ((receiveMessages s clientId).2).Pairwise (fun a b => a.2 ≤ b.2) ∧
    List.Perm ((receiveMessages s clientId).2)
      ((s.queue.filter (fun q => q.recipient == clientId)).map
        (fun q => (q.content, q.createdAt))) ∧
    (receiveMessages s clientId).1.queue
      = s.queue.filter (fun q => !(q.recipient == clientId)) ∧
    (receiveMessages s clientId).1.connected clientId = some freshChannel ∧
    (∀ x, x ≠ clientId → (receiveMessages s clientId).1.connected x = s.connected x) ∧
    (receiveMessages (receiveMessages s clientId).1 clientId).2 = [] ∧
    (∀ later, receiveStream (receiveMessages s clientId).2 later
      = (receiveMessages s clientId).2 ++ later) := by
  refine ⟨?_, ?_, rfl, ?_, ?_, ?_, fun _ => rfl⟩
  · show ((sortByCreatedAt (s.queue.filter (fun q => q.recipient == clientId))).map
        (fun q => (q.content, q.createdAt))).Pairwise (fun a b => a.2 ≤ b.2)
    rw [List.pairwise_map]
    exact sortByCreatedAt_pairwise _
  · exact (sortByCreatedAt_perm _).map _
  · show (if clientId = clientId then some freshChannel else s.connected clientId)
        = some freshChannel
    rw [if_pos rfl]
  · intro x hx
    show (if x = clientId then some freshChannel else s.connected x) = s.connected x
    rw [if_neg hx]
  · show (sortByCreatedAt
        (((s.queue.filter (fun q => !(q.recipient == clientId))).filter
          (fun q => q.recipient == clientId)))).map
        (fun q => (q.content, q.createdAt)) = []
    rw [filter_not_filter]
    rfl

/-- Claim C2 (amended): adding a member that is already present in the
current membership AND distinct from the acting identity fails with the
member-already-exists error, before any engine call, merge or send; the
guard is computed over the member list with the actor filtered out, so it
does not cover the case of the actor adding their own identity. -/
theorem addMember_duplicate_guard
    (store : List ClientRow) (srv : ServerState) (groups : Groups)
    (username : String) (groupId : Nat) (newMember : String)
    (g : GroupState) (row : ClientRow) (kp : KeyPackage)
    (hcred : credential store username = Except.ok row)
    (hkp : fetchKeyPackage srv newMember = Except.ok kp)
    (hvalid : kp.valid = true)
    (hg : groups groupId = some g)
    (hmem : (recipientsExcept g username).contains newMember = true) :
    addMember store srv groups username groupId newMember =
      Except.error ClientError.memberExists := by
  unfold addMember
  simp only [hcred, hkp, hg]
  show Except.bind (Except.ok row) _ = _
  rw [Except.bind]
  show Except.bind (Except.ok kp) _ = _
  rw [Except.bind]
  simp only [hvalid, Bool.not_true, Bool.false_eq_true, if_false, hmem, if_true]
  rfl

def storeA : List ClientRow := [⟨"alice", 1, "alice"⟩]

def srvA : ServerState :=
  ⟨[⟨10, "alice", ⟨true, true, "alice", 1⟩, 0⟩], [], fun _ => none⟩

def groupsA : Groups :=
  fun gid => if gid = 5 then some (initialGroup "alice") else none

/-- Detector for the member-already-exists outcome. -/
def isMemberExistsError {α : Type} : Except ClientError α → Bool
  | Except.error ClientError.memberExists => true
  | _ => false

/-- Detector for a successful outcome. -/
def isOkResult {ε α : Type} : Except ε α → Bool
  | Except.ok _ => true
  | Except.error _ => false

/-- Counterexample to C2 as stated: alice is a current member of her solo
group, yet addMember for newMember alice does not fail with the
member-already-exists error; it passes the guard (computed over the
actor-less member list) and succeeds, producing a commit. -/
theorem addMember_self_add_bypasses_guard :
    "alice" ∈ identities (initialGroup "alice") ∧
    isMemberExistsError (addMember storeA srvA groupsA "alice" 5 "alice") = false ∧
    isOkResult (addMember storeA srvA groupsA "alice" 5 "alice") = true :=
  ⟨by decide, rfl, rfl⟩

def srvB : ServerState :=
  ⟨[⟨11, "bob", ⟨true, true, "bob", 2⟩, 0⟩], [], fun _ => none⟩

def groupsB : Groups :=
  fun gid => if gid = 5 then some ⟨0, [⟨0, "alice"⟩, ⟨1, "bob"⟩], []⟩ else none

/-- Witness for the amended C2: adding bob, already a member distinct
from the actor, fails with the member-already-exists error. -/
theorem addMember_duplicate_guard_witness :
    credential storeA "alice" = Except.ok ⟨"alice", 1, "alice"⟩ ∧
    fetchKeyPackage srvB "bob" = Except.ok ⟨true, true, "bob", 2⟩ ∧
    groupsB 5 = some ⟨0, [⟨0, "alice"⟩, ⟨1, "bob"⟩], []⟩ ∧
    (recipientsExcept ⟨0, [⟨0, "alice"⟩, ⟨1, "bob"⟩], []⟩ "alice").contains "bob"
      = true ∧
    addMember storeA srvB groupsB "alice" 5 "bob"
      = Except.error ClientError.memberExists :=
  ⟨rfl, rfl, rfl, rfl,
    addMember_duplicate_guard storeA srvB groupsB "alice" 5 "bob"
      ⟨0, [⟨0, "alice"⟩, ⟨1, "bob"⟩], []⟩ ⟨"alice", 1, "alice"⟩
      ⟨true, true, "bob", 2⟩ rfl rfl rfl rfl rfl⟩

theorem uploadKeyPackage_self_ok (srv : ServerState) (user : String) (b p : Nat)
    (t : Int) :
    uploadKeyPackage srv user ⟨true, true, user, b⟩ p t =
      Except.ok
        ({ srv with keyPackages :=
            srv.keyPackages.filter (fun row => row.clientId ≠ user)
              ++ [⟨p, user, ⟨true, true, user, b⟩, t⟩] }, p) := by
  unfold uploadKeyPackage
  rw [if_neg (fun h => Bool.noConfusion h), if_neg (fun h => Bool.noConfusion h),
    if_neg (show ¬(KeyPackage.identity ⟨true, true, user, b⟩ ≠ user) from
      fun h => h rfl)]

/-- Claim C6 (amended): the five operations createGroup, updateGroup,
addMember, removeMember and send first load the acting identity's
signing key and credential and fail with the identity-not-registered
error, issuing nothing, when there is no stored credential; register
instead inserts a fresh credential and succeeds for an unregistered
identity; and receive never consults the identity store at all, so its
outcome is independent of the stored credentials. -/
theorem ops_require_registration
    (store : List ClientRow) (user : String)
    (hs : store.find? (fun row => row.username = user) = none) :
    (∀ groups freshGid, createGroup store groups user freshGid
      = Except.error ClientError.notRegistered) ∧
    (∀ groups gid, updateGroup store groups user gid
      = Except.error ClientError.notRegistered) ∧
    (∀ srv groups gid nm, addMember store srv groups user gid nm
      = Except.error ClientError.notRegistered) ∧
    (∀ groups gid tgt w, removeMember store groups user gid tgt w
      = Except.error ClientError.notRegistered) ∧
    (∀ groups gid text, clientSend store groups user gid text
      = Except.error ClientError.notRegistered) ∧
    (∀ srv k p b t, (register store srv user k p b t).2.2 = Except.ok ()) ∧
    (∀ store2 groups srv, clientReceive store groups srv user
      = clientReceive store2 groups srv user) := by
  have hc : credential store user = Except.error ClientError.notRegistered := by
    unfold credential
    rw [hs]
  have hany : store.any (fun row => row.username = user) = false := by
    rw [List.any_eq_false]
    intro row hrow
    have := List.find?_eq_none.mp hs row hrow
    simpa using this
  refine ⟨?_, ?_, ?_, ?_, ?_, ?_, ?_⟩
  · intro groups freshGid
    unfold createGroup
    simp only [hc]
    rfl
  · intro groups gid
    unfold updateGroup
    simp only [hc]
    rfl
  · intro srv groups gid nm
    unfold addMember
    simp only [hc]
    rfl
  · intro groups gid tgt w
    unfold removeMember
    simp only [hc]
    rfl
  · intro groups gid text
    unfold clientSend
    simp only [hc]
    rfl
  · intro srv k p b t
    unfold register
    simp only [hany, Bool.false_eq_true, if_false]
    rw [uploadKeyPackage_self_ok]
  · intro store2 groups srv
    rfl

def groupsEmpty : Groups := fun _ => none

/-- Counterexample to C6 as stated: alice has no stored credential, yet
receive does not fail with the identity-not-registered error; it opens
the stream and completes. -/
theorem receive_unregistered_proceeds :
    (([] : List ClientRow).find? (fun row => row.username = "alice") = none) ∧
    (clientReceive [] groupsEmpty srvC0 "alice").2.2.2 = Except.ok () :=
  ⟨rfl, rfl⟩

/-- Witness for the amended C6 on the empty identity store. -/
theorem ops_require_registration_witness :
    (([] : List ClientRow).find? (fun row => row.username = "alice") = none) ∧
    createGroup [] groupsEmpty "alice" 5 = Except.error ClientError.notRegistered ∧
    updateGroup [] groupsEmpty "alice" 5 = Except.error ClientError.notRegistered ∧
    addMember [] srvC0 groupsEmpty "alice" 5 "bob"
      = Except.error ClientError.notRegistered ∧
    removeMember [] groupsEmpty "alice" 5 "bob" none
      = Except.error ClientError.notRegistered ∧
    clientSend [] groupsEmpty "alice" 5 "hi"
      = Except.error ClientError.notRegistered ∧
    (register [] srvC0 "alice" 1 2 3 0).2.2 = Except.ok () ∧
    clientReceive [] groupsEmpty srvC0 "alice"
      = clientReceive storeA groupsEmpty srvC0 "alice" := by
  have h := ops_require_registration [] "alice" rfl
  exact ⟨rfl, h.1 groupsEmpty 5, h.2.1 groupsEmpty 5,
    h.2.2.1 srvC0 groupsEmpty 5 "bob", h.2.2.2.1 groupsEmpty 5 "bob" none,
    h.2.2.2.2.1 groupsEmpty 5 "hi", h.2.2.2.2.2.1 srvC0 1 2 3 0,
    h.2.2.2.2.2.2 storeA groupsEmpty srvC0⟩

/-- Claim C7: removing a target that is not in the current membership
fails with the member-not-found error and changes nothing; and whenever
the engine's removal step reports a welcome, removeMember fails with the
fatal invariant-violation error before merging or sending anything. -/
theorem removeMember_guards
    (store : List ClientRow) (groups : Groups) (sender target : String)
    (gid : Nat) (g : GroupState) (row : ClientRow)
    (hcred : credential store sender = Except.ok row)
    (hg : groups gid = some g) :
    (g.members.find? (fun m => m.credential = target) = none →
      ∀ w, removeMember store groups sender gid target w
        = Except.error ClientError.memberNotFound) ∧
    (∀ m, g.members.find? (fun m2 => m2.credential = target) = some m →
      ∀ wTok, removeMember store groups sender gid target (some wTok)
        = Except.error ClientError.protocolViolation) := by
  constructor
  · intro hfind w
    unfold removeMember
    simp only [hcred, hg, hfind]
    rfl
  · intro m hfind wTok
    unfold removeMember
    simp only [hcred, hg, hfind]
    rfl

def groupsC : Groups :=
  fun gid => if gid = 5 then some ⟨0, [⟨0, "alice"⟩, ⟨1, "bob"⟩], []⟩ else none

/-- Witness for C7: removing absent dave is member-not-found; removing
bob with the engine reporting a welcome is the invariant violation. -/
theorem removeMember_guards_witness :
    credential storeA "alice" = Except.ok ⟨"alice", 1, "alice"⟩ ∧
    groupsC 5 = some ⟨0, [⟨0, "alice"⟩, ⟨1, "bob"⟩], []⟩ ∧
    removeMember storeA groupsC "alice" 5 "dave" none
      = Except.error ClientError.memberNotFound ∧
    removeMember storeA groupsC "alice" 5 "bob" (some 0)
      = Except.error ClientError.protocolViolation :=
  ⟨rfl, rfl,
    (removeMember_guards storeA groupsC "alice" "dave" 5
      ⟨0, [⟨0, "alice"⟩, ⟨1, "bob"⟩], []⟩ ⟨"alice", 1, "alice"⟩ rfl rfl).1 rfl none,
    (removeMember_guards storeA groupsC "alice" "bob" 5
      ⟨0, [⟨0, "alice"⟩, ⟨1, "bob"⟩], []⟩ ⟨"alice", 1, "alice"⟩ rfl rfl).2
      ⟨1, "bob"⟩ rfl 0⟩

/-- Claim C10: a second register call for an identity that already has a
client_user row fails at the insert (unique key on username) and aborts
before building or uploading any key package: the client store and the
server-side directory are left unchanged. -/
theorem register_duplicate_aborts
    (store : List ClientRow) (srv : ServerState) (username : String)
    (k p b : Nat) (t : Int)
    (h : store.any (fun row => row.username = username) = true) :
    register store srv username k p b t =
      (store, srv, Except.error (ClientError.storage uniqueViolationMsg)) ∧
    ∀ anyId, fetchKeyPackage (register store srv username k p b t).2.1 anyId
      = fetchKeyPackage srv anyId := by
  have h1 : register store srv username k p b t =
      (store, srv, Except.error (ClientError.storage uniqueViolationMsg)) := by
    unfold register
    rw [if_pos h]
  refine ⟨h1, ?_⟩
  intro anyId
  rw [h1]

/-- Witness for C10: alice is already registered; a second register
leaves both stores unchanged and fails. -/
theorem register_duplicate_aborts_witness :
    storeA.any (fun row => row.username = "alice") = true ∧
    register storeA srvA "alice" 9 12 3 0 =
      (storeA, srvA, Except.error (ClientError.storage uniqueViolationMsg)) ∧
    fetchKeyPackage (register storeA srvA "alice" 9 12 3 0).2.1 "alice"
      = fetchKeyPackage srvA "alice" :=
  ⟨rfl, (register_duplicate_aborts storeA srvA "alice" 9 12 3 0 rfl).1,
    (register_duplicate_aborts storeA srvA "alice" 9 12 3 0 rfl).2 "alice"⟩

theorem push_some_inv (c : Channel) (item : Blob × Int) (c1 : Channel)
    (h : c.push item = some c1) :
    c.closed = false ∧ c1 = { c with buffered := c.buffered ++ [item] } := by
  unfold Channel.push at h
  by_cases hc : c.closed = true
  · rw [if_pos hc] at h
    cases h
  · rw [if_neg hc] at h
    cases h
    exact ⟨Bool.eq_false_iff.mpr hc, rfl⟩

theorem push_none_inv (c : Channel) (item : Blob × Int)
    (h : c.push item = none) : c.closed = true := by
  unfold Channel.push at h
  by_cases hc : c.closed = true
  · exact hc
  · rw [if_neg hc] at h
    cases h

theorem go_connected_none (content : Blob) (mid : Nat) (ts : Int)
    (dbF : String → Bool) (l : List String) :
    ∀ (s : ServerState) (x : String), s.connected x = none →
    (sendMessageGo content mid ts dbF s l).1.connected x = none := by
  induction l with
  | nil => intro s x h; exact h
  | cons r rest ih =>
    intro s x h
    simp only [sendMessageGo]
    split
    next c hcr =>
      split
      next c1 hp =>
        have hxr : x ≠ r := by
          intro he
          rw [he, hcr] at h
          cases h
        exact ih _ x (by
          show (if x = r then some c1 else s.connected x) = none
          rw [if_neg hxr]
          exact h)
      next hp =>
        split
        next hdb => exact h
        next hdb => exact ih _ x h
    next hcr =>
      split
      next hdb => exact h
      next hdb => exact ih _ x h

theorem go_connected_some (content : Blob) (mid : Nat) (ts : Int)
    (dbF : String → Bool) (l : List String) :
    ∀ (s : ServerState) (x : String) (c : Channel), s.connected x = some c →
    ∃ tail, (sendMessageGo content mid ts dbF s l).1.connected x =
      some { c with buffered := c.buffered ++ tail } := by
  induction l with
  | nil =>
    intro s x c h
    refine ⟨[], ?_⟩
    show s.connected x = some { c with buffered := c.buffered ++ [] }
    rw [h, List.append_nil]
  | cons r rest ih =>
    intro s x c h
    simp only [sendMessageGo]
    split
    next c0 hcr =>
      split
      next c1 hp =>
        obtain ⟨-, hc1⟩ := push_some_inv c0 _ c1 hp
        by_cases hxr : x = r
        · subst hxr
          rw [hcr] at h
          cases h
          obtain ⟨tail2, htail⟩ :=
            ih { s with connected := fun y => if y = x then some c1 else s.connected y }
              x c1 (by
                show (if x = x then some c1 else s.connected x) = some c1
                rw [if_pos rfl])
          refine ⟨(content, ts) :: tail2, ?_⟩
          rw [htail, hc1]
          simp [List.append_assoc]
        · obtain ⟨tail2, htail⟩ :=
            ih { s with connected := fun y => if y = r then some c1 else s.connected y }
              x c (by
                show (if x = r then some c1 else s.connected x) = some c
                rw [if_neg hxr]
                exact h)
          exact ⟨tail2, htail⟩
      next hp =>
        split
        next hdb => exact ⟨[], by rw [h, List.append_nil]⟩
        next hdb => exact ih _ x c h
    next hcr =>
      split
      next hdb => exact ⟨[], by rw [h, List.append_nil]⟩
      next hdb => exact ih _ x c h

theorem go_fanout (content : Blob) (mid : Nat) (ts : Int) (dbF : String → Bool)
    (l : List String) :
    ∀ (s : ServerState), (∀ r ∈ l, dbF r = false) →
    (sendMessageGo content mid ts dbF s l).2 = Except.ok ts ∧
    ∃ newQ, (sendMessageGo content mid ts dbF s l).1.queue = s.queue ++ newQ ∧
      (∀ q ∈ newQ, q.messageId = mid ∧ q.createdAt = ts ∧ q.content = content ∧
        q.recipient ∈ l) ∧
      (∀ r ∈ l, (∃ c, (sendMessageGo content mid ts dbF s l).1.connected r = some c ∧
          (content, ts) ∈ c.buffered) ∨ (∃ q, q ∈ newQ ∧ q.recipient = r)) ∧
      (∀ r c, s.connected r = some c → c.closed = false →
        ∀ q ∈ newQ, q.recipient ≠ r) ∧
      (∀ r ∈ l, (s.connected r = none ∨ ∃ c, s.connected r = some c ∧ c.closed = true) →
        ∃ q, q ∈ newQ ∧ q.recipient = r) := by
  induction l with
  | nil =>
    intro s hdb
    refine ⟨rfl, [], ?_, ?_, ?_, ?_, ?_⟩
    · show s.queue = s.queue ++ []
      rw [List.append_nil]
    · intro q hq
      exact absurd hq (List.not_mem_nil q)
    · intro r hr
      exact absurd hr (List.not_mem_nil r)
    · intro r c hc hcl q hq
      exact absurd hq (List.not_mem_nil q)
    · intro r hr
      exact absurd hr (List.not_mem_nil r)
  | cons r rest ih =>
    intro s hdb
    have hdbr : dbF r = false := hdb r (List.mem_cons_self r rest)
    have hdbrest : ∀ p ∈ rest, dbF p = false :=
      fun p hp => hdb p (List.mem_cons_of_mem r hp)
    simp only [sendMessageGo]
    split
    next c0 hcr =>
      split
      next c1 hp =>
        obtain ⟨hclosed, hc1⟩ := push_some_inv c0 _ c1 hp
        obtain ⟨hok, newQ, hqueue, hprops, hdeliv, hnowrite, hdead⟩ :=
          ih { s with connected := fun y => if y = r then some c1 else s.connected y }
            hdbrest
        refine ⟨hok, newQ, hqueue, ?_, ?_, ?_, ?_⟩
        · intro q hq
          obtain ⟨h1, h2, h3, h4⟩ := hprops q hq
          exact ⟨h1, h2, h3, List.mem_cons_of_mem r h4⟩
        · intro x hx
          rcases List.mem_cons.mp hx with hxr | hxrest
          · subst hxr
            left
            obtain ⟨tail, htail⟩ := go_connected_some content mid ts dbF rest
              { s with connected := fun y => if y = x then some c1 else s.connected y }
              x c1 (by
                show (if x = x then some c1 else s.connected x) = some c1
                rw [if_pos rfl])
            refine ⟨_, htail, ?_⟩
            show (content, ts) ∈ c1.buffered ++ tail
            apply List.mem_append_left
            rw [hc1]
            exact List.mem_append_right _ (List.mem_singleton_self _)
          · exact hdeliv x hxrest
        · intro x cx hcx hclx q hq
          by_cases hxr : x = r
          · subst hxr
            rw [hcr] at hcx
            cases hcx
            refine hnowrite x c1 (by
              show (if x = x then some c1 else s.connected x) = some c1
              rw [if_pos rfl]) ?_ q hq
            rw [hc1]
            exact hclosed
          · exact hnowrite x cx (by
              show (if x = r then some c1 else s.connected x) = some cx
              rw [if_neg hxr]
              exact hcx) hclx q hq
        · intro x hx hxdead
          rcases List.mem_cons.mp hx with hxr | hxrest
          · subst hxr
            rcases hxdead with hnone | ⟨cdead, hsome, hcl⟩
            · rw [hcr] at hnone
              cases hnone
            · rw [hcr] at hsome
              cases hsome
              rw [hclosed] at hcl
              cases hcl
          · by_cases hxr2 : x = r
            · subst hxr2
              rcases hxdead with hnone | ⟨cdead, hsome, hcl⟩
              · rw [hcr] at hnone
                cases hnone
              · rw [hcr] at hsome
                cases hsome
                rw [hclosed] at hcl
                cases hcl
            · refine hdead x hxrest ?_
              rcases hxdead with hnone | ⟨cdead, hsome, hcl⟩
              · left
                show (if x = r then some c1 else s.connected x) = none
                rw [if_neg hxr2]
                exact hnone
              · right
                refine ⟨cdead, ?_, hcl⟩
                show (if x = r then some c1 else s.connected x) = some cdead
                rw [if_neg hxr2]
                exact hsome
      next hp =>
        split
        next hdbT => simp [hdbr] at hdbT
        next hdbF =>
          have hclosed0 := push_none_inv c0 _ hp
          obtain ⟨hok, newQ, hqueue, hprops, hdeliv, hnowrite, hdead⟩ :=
            ih (enqueueMessage s mid r content ts) hdbrest
          refine ⟨hok, ⟨mid, r, content, ts⟩ :: newQ, ?_, ?_, ?_, ?_, ?_⟩
          · rw [hqueue]
            show (s.queue ++ [⟨mid, r, content, ts⟩]) ++ newQ
              = s.queue ++ (⟨mid, r, content, ts⟩ :: newQ)
            rw [List.append_assoc]
            rfl
          · intro q hq
            rcases List.mem_cons.mp hq with hq0 | hqrest
            · subst hq0
              exact ⟨rfl, rfl, rfl, List.mem_cons_self r rest⟩
            · obtain ⟨h1, h2, h3, h4⟩ := hprops q hqrest
              exact ⟨h1, h2, h3, List.mem_cons_of_mem r h4⟩
          · intro x hx
            rcases List.mem_cons.mp hx with hxr | hxrest
            · subst hxr
              right
              exact ⟨⟨mid, x, content, ts⟩, List.mem_cons_self _ _, rfl⟩
            · rcases hdeliv x hxrest with hleft | ⟨q, hq, hqr⟩
              · left
                exact hleft
              · right
                exact ⟨q, List.mem_cons_of_mem _ hq, hqr⟩
          · intro x cx hcx hclx q hq
            rcases List.mem_cons.mp hq with hq0 | hqrest
            · subst hq0
              intro he
              rw [← he] at hcx
              rw [hcr] at hcx
              cases hcx
              rw [hclosed0] at hclx
              cases hclx
            · exact hnowrite x cx hcx hclx q hqrest
          · intro x hx hxdead
            rcases List.mem_cons.mp hx with hxr | hxrest
            · subst hxr
              exact ⟨⟨mid, x, content, ts⟩, List.mem_cons_self _ _, rfl⟩
            · obtain ⟨q, hq, hqr⟩ := hdead x hxrest hxdead
              exact ⟨q, List.mem_cons_of_mem _ hq, hqr⟩
    next hcr =>
      split
      next hdbT => simp [hdbr] at hdbT
      next hdbF =>
        obtain ⟨hok, newQ, hqueue, hprops, hdeliv, hnowrite, hdead⟩ :=
          ih (enqueueMessage s mid r content ts) hdbrest
        refine ⟨hok, ⟨mid, r, content, ts⟩ :: newQ, ?_, ?_, ?_, ?_, ?_⟩
        · rw [hqueue]
          show (s.queue ++ [⟨mid, r, content, ts⟩]) ++ newQ
            = s.queue ++ (⟨mid, r, content, ts⟩ :: newQ)
          rw [List.append_assoc]
          rfl
        · intro q hq
          rcases List.mem_cons.mp hq with hq0 | hqrest
          · subst hq0
            exact ⟨rfl, rfl, rfl, List.mem_cons_self r rest⟩
          · obtain ⟨h1, h2, h3, h4⟩ := hprops q hqrest
            exact ⟨h1, h2, h3, List.mem_cons_of_mem r h4⟩
        · intro x hx
          rcases List.mem_cons.mp hx with hxr | hxrest
          · subst hxr
            right
            exact ⟨⟨mid, x, content, ts⟩, List.mem_cons_self _ _, rfl⟩
          · rcases hdeliv x hxrest with hleft | ⟨q, hq, hqr⟩
            · left
              exact hleft
            · right
              exact ⟨q, List.mem_cons_of_mem _ hq, hqr⟩
        · intro x cx hcx hclx q hq
          rcases List.mem_cons.mp hq with hq0 | hqrest
          · subst hq0
            intro he
            rw [← he] at hcx
            rw [hcr] at hcx
            cases hcx
          · exact hnowrite x cx hcx hclx q hqrest
        · intro x hx hxdead
          rcases List.mem_cons.mp hx with hxr | hxrest
          · subst hxr
            exact ⟨⟨mid, x, content, ts⟩, List.mem_cons_self _ _, rfl⟩
          · obtain ⟨q, hq, hqr⟩ := hdead x hxrest hxdead
            exact ⟨q, List.mem_cons_of_mem _ hq, hqr⟩

/-- Claim C4: when the durable store does not fail, a sendMessage call
handles every recipient independently: it returns the shared timestamp;
every new queue entry carries the one message identifier, the one
timestamp and the call's content; every recipient either has the message
in their live channel's buffer or has a new queue entry; a recipient
whose registered channel was open gets no durable write; and a recipient
with no channel or a closed one gets a durable queue entry. -/
theorem sendMessage_fanout
    (s : ServerState) (sender : String) (recips : List String) (content : Blob)
    (mid : Nat) (ts : Int) (dbF : String → Bool)
    (hdb : ∀ r ∈ recips, dbF r = false) :
    (sendMessage s ⟨sender, recips, content⟩ mid ts dbF).2 = Except.ok ts ∧
    ∃ newQ, (sendMessage s ⟨sender, recips, content⟩ mid ts dbF).1.queue
        = s.queue ++ newQ ∧
      (∀ q ∈ newQ, q.messageId = mid ∧ q.createdAt = ts ∧ q.content = content ∧
        q.recipient ∈ recips) ∧
      (∀ r ∈ recips,
        (∃ c, (sendMessage s ⟨sender, recips, content⟩ mid ts dbF).1.connected r
            = some c ∧ (content, ts) ∈ c.buffered) ∨
        (∃ q, q ∈ newQ ∧ q.recipient = r)) ∧
      (∀ r c, s.connected r = some c → c.closed = false →
        ∀ q ∈ newQ, q.recipient ≠ r) ∧
      (∀ r ∈ recips,
        (s.connected r = none ∨ ∃ c, s.connected r = some c ∧ c.closed = true) →
        ∃ q, q ∈ newQ ∧ q.recipient = r) :=
  go_fanout content mid ts dbF recips s hdb

def srvD4 : ServerState :=
  ⟨[], [], fun x => if x = "bob" then some freshChannel else none⟩

def noDbFail : String → Bool := fun _ => false

/-- Witness for C4: bob is connected on an open channel, carol is not
connected; with no storage failure the fan-out delivers to both. -/
theorem sendMessage_fanout_witness :
    (∀ r ∈ ["bob", "carol"], noDbFail r = false) ∧
    ((sendMessage srvD4 ⟨"alice", ["bob", "carol"], Blob.keyPackageMsg⟩ 7 5 noDbFail).2
        = Except.ok 5 ∧
      ∃ newQ,
        (sendMessage srvD4 ⟨"alice", ["bob", "carol"], Blob.keyPackageMsg⟩ 7 5
            noDbFail).1.queue = srvD4.queue ++ newQ ∧
        (∀ q ∈ newQ, q.messageId = 7 ∧ q.createdAt = 5 ∧
          q.content = Blob.keyPackageMsg ∧ q.recipient ∈ ["bob", "carol"]) ∧
        (∀ r ∈ ["bob", "carol"],
          (∃ c, (sendMessage srvD4 ⟨"alice", ["bob", "carol"], Blob.keyPackageMsg⟩
              7 5 noDbFail).1.connected r = some c ∧
            (Blob.keyPackageMsg, (5 : Int)) ∈ c.buffered) ∨
          (∃ q, q ∈ newQ ∧ q.recipient = r)) ∧
        (∀ r c, srvD4.connected r = some c → c.closed = false →
          ∀ q ∈ newQ, q.recipient ≠ r) ∧
        (∀ r ∈ ["bob", "carol"],
          (srvD4.connected r = none ∨
            ∃ c, srvD4.connected r = some c ∧ c.closed = true) →
          ∃ q, q ∈ newQ ∧ q.recipient = r)) :=
  ⟨by decide,
    sendMessage_fanout srvD4 "alice" ["bob", "carol"] Blob.keyPackageMsg 7 5
      noDbFail (by decide)⟩

/-- The relay state with the channel of one recipient replaced. -/
def channelReplaced (s : ServerState) (r : String) (c1 : Channel) : ServerState :=
  { s with connected := fun x => if x = r then some c1 else s.connected x }

theorem go_error_after_prefix (content : Blob) (mid : Nat) (ts : Int)
    (dbF : String → Bool) (pre : List String) :
    ∀ (s : ServerState) (r : String) (post : List String),
    (∀ p ∈ pre, dbF p = false) → s.connected r = none → dbF r = true →
    sendMessageGo content mid ts dbF s (pre ++ r :: post) =
      ((sendMessageGo content mid ts dbF s pre).1, Except.error dbErrorMsg) := by
  induction pre with
  | nil =>
    intro s r post hpre hnone hdb
    show sendMessageGo content mid ts dbF s (r :: post) = (s, Except.error dbErrorMsg)
    simp only [sendMessageGo, hnone]
    rw [if_pos hdb]
  | cons p ps ih =>
    intro s r post hpre hnone hdb
    have hdbp : dbF p = false := hpre p (List.mem_cons_self p ps)
    have hpre2 : ∀ x ∈ ps, dbF x = false :=
      fun x hx => hpre x (List.mem_cons_of_mem p hx)
    simp only [List.cons_append, sendMessageGo]
    split
    next c0 hcp =>
      split
      next c1 hp =>
        refine ih _ r post hpre2 ?_ hdb
        show (if r = p then some c1 else s.connected r) = none
        rw [if_neg (fun he => by rw [he, hcp] at hnone; cases hnone)]
        exact hnone
      next hp =>
        split
        next hdbT => simp [hdbp] at hdbT
        next hdbF => exact ih _ r post hpre2 hnone hdb
    next hcp =>
      split
      next hdbT => simp [hdbp] at hdbT
      next hdbF => exact ih _ r post hpre2 hnone hdb

/-- Claim C8 (amended): a storage failure during a sendMessage enqueue is
surfaced as an internal error, but the writes are per-recipient, not one
transaction: the final state is exactly the state after processing the
recipients before the failing one (their pushes and queue entries
remain), and the recipients after the failing one are not processed. -/
theorem sendMessage_storage_failure_not_transactional
    (s : ServerState) (sender : String) (content : Blob) (mid : Nat) (ts : Int)
    (dbF : String → Bool) (pre : List String) (r : String) (post : List String)
    (hpre : ∀ p ∈ pre, dbF p = false) (hnone : s.connected r = none)
    (hdb : dbF r = true) :
    sendMessage s ⟨sender, pre ++ r :: post, content⟩ mid ts dbF =
      ((sendMessage s ⟨sender, pre, content⟩ mid ts dbF).1,
        Except.error dbErrorMsg) :=
  go_error_after_prefix content mid ts dbF pre s r post hpre hnone hdb

def dbFailCarol : String → Bool := fun x => x == "carol"

/-- Counterexample to C8 as stated: both recipients are offline, the
enqueue for carol fails; the call surfaces the internal error, yet bob's
copy is already durably enqueued while carol has nothing - partial state
remains. -/
theorem storage_failure_leaves_partial_state :
    (sendMessage srvC0 ⟨"alice", ["bob", "carol"], Blob.keyPackageMsg⟩ 7 5
        dbFailCarol).2 = Except.error dbErrorMsg ∧
    ((sendMessage srvC0 ⟨"alice", ["bob", "carol"], Blob.keyPackageMsg⟩ 7 5
        dbFailCarol).1.queue.map (fun q => q.recipient)) = ["bob"] :=
  ⟨rfl, rfl⟩

/-- Witness for the amended C8 at the same concrete inputs. -/
theorem sendMessage_storage_failure_witness :
    (∀ p ∈ ["bob"], dbFailCarol p = false) ∧
    srvC0.connected "carol" = none ∧
    dbFailCarol "carol" = true ∧
    sendMessage srvC0 ⟨"alice", ["bob"] ++ "carol" :: [], Blob.keyPackageMsg⟩ 7 5
        dbFailCarol =
      ((sendMessage srvC0 ⟨"alice", ["bob"], Blob.keyPackageMsg⟩ 7 5 dbFailCarol).1,
        Except.error dbErrorMsg) :=
  ⟨by decide, rfl, rfl,
    sendMessage_storage_failure_not_transactional srvC0 "alice" Blob.keyPackageMsg
      7 5 dbFailCarol ["bob"] "carol" [] (by decide) rfl rfl⟩

/-- Claim C9 (amended): for a connected recipient, only a closed channel
is treated as a failed push that falls back to a durable enqueue; an open
channel receives the message whatever its buffer occupancy, with no
durable write - a full buffer makes the send await capacity instead of
failing over, so a slow consumer delays the call rather than triggering
the queue. -/
theorem push_fallback_only_on_closed
    (s : ServerState) (sender r : String) (content : Blob) (mid : Nat) (ts : Int)
    (dbF : String → Bool) (c : Channel) (hc : s.connected r = some c) :
    (c.closed = false →
      sendMessage s ⟨sender, [r], content⟩ mid ts dbF =
        (channelReplaced s r { c with buffered := c.buffered ++ [(content, ts)] },
          Except.ok ts)) ∧
    (c.closed = true → dbF r = false →
      sendMessage s ⟨sender, [r], content⟩ mid ts dbF =
        (enqueueMessage s mid r content ts, Except.ok ts)) := by
  constructor
  · intro hcl
    show sendMessageGo content mid ts dbF s [r] = _
    have hpush : c.push (content, ts) =
        some { c with buffered := c.buffered ++ [(content, ts)] } := by
      unfold Channel.push
      rw [if_neg (fun h => by rw [hcl] at h; exact Bool.noConfusion h)]
    simp only [sendMessageGo, hc, hpush]
    rfl
  · intro hcl hdbF
    show sendMessageGo content mid ts dbF s [r] = _
    have hpush : c.push (content, ts) = none := by
      unfold Channel.push
      rw [if_pos hcl]
    simp only [sendMessageGo, hc, hpush, hdbF, Bool.false_eq_true, if_false]

def fullChan : Channel := ⟨false, 100, List.replicate 100 (Blob.groupInfo, 0)⟩

def srvE : ServerState :=
  ⟨[], [], fun x => if x = "bob" then some fullChan else none⟩

/-- Counterexample to C9 as stated: bob's channel buffer is full (100 of
100) but open; the push is not treated as failed and nothing is durably
enqueued - the message lands in the channel buffer. -/
theorem full_channel_push_succeeds_no_enqueue :
    fullChan.isFull ∧ fullChan.closed = false ∧
    (sendMessage srvE ⟨"alice", ["bob"], Blob.keyPackageMsg⟩ 7 5 noDbFail).1.queue
      = [] ∧
    (sendMessage srvE ⟨"alice", ["bob"], Blob.keyPackageMsg⟩ 7 5 noDbFail).2
      = Except.ok 5 ∧
    (sendMessage srvE ⟨"alice", ["bob"], Blob.keyPackageMsg⟩ 7 5
        noDbFail).1.connected "bob"
      = some { fullChan with buffered := fullChan.buffered ++ [(Blob.keyPackageMsg, 5)] } :=
  ⟨by decide, rfl, rfl, rfl, rfl⟩

def closedChan : Channel := ⟨true, 100, []⟩

def srvF : ServerState :=
  ⟨[], [], fun x => if x = "bob" then some closedChan else none⟩

/-- Witness for the amended C9: a full open channel still receives the
push; a closed channel falls back to the durable queue. -/
theorem push_fallback_only_on_closed_witness :
    srvE.connected "bob" = some fullChan ∧ fullChan.closed = false ∧
    sendMessage srvE ⟨"alice", ["bob"], Blob.keyPackageMsg⟩ 7 5 noDbFail =
      (channelReplaced srvE "bob"
          { fullChan with buffered := fullChan.buffered ++ [(Blob.keyPackageMsg, 5)] },
        Except.ok 5) ∧
    srvF.connected "bob" = some closedChan ∧ closedChan.closed = true ∧
    sendMessage srvF ⟨"alice", ["bob"], Blob.keyPackageMsg⟩ 7 5 noDbFail =
      (enqueueMessage srvF 7 "bob" Blob.keyPackageMsg 5, Except.ok 5) :=
  ⟨rfl, rfl,
    (push_fallback_only_on_closed srvE "alice" "bob" Blob.keyPackageMsg 7 5
      noDbFail fullChan rfl).1 rfl,
    rfl, rfl,
    (push_fallback_only_on_closed srvF "alice" "bob" Blob.keyPackageMsg 7 5
      noDbFail closedChan rfl).2 rfl rfl⟩

end MlsChat
